import Mathlib

/-!
Shallow embedding of the polars nested-list operations layer
(`py-polars/polars/series/list.py` binding surface plus the element-function
evaluator exercised by `py-polars/tests/unit/operations/test_apply.py`).

The Python files under `src/` are a docstring/stub binding surface; the
vectorized kernels and the apply/map evaluator live in the engine beneath it.
Definitions for those kernels are therefore modelled from the spec
(`spec.md` §3, §4.2, §4.3, §7), as noted on each definition.
-/

namespace PolarsList

/-- A scalar cell value of a column: integers, strings or booleans
(the element types exercised by the claims). A null cell is `Option.none`
one level up. -/
inductive PVal where
  | pint (n : Int)
  | pstr (s : String)
  | pbool (b : Bool)
deriving DecidableEq

/-- Column element types. `object` is the boxed generic (heterogeneous)
dtype of spec §4.3 step 3 / §9. -/
inductive DType where
  | tInt
  | tStr
  | tBool
  | object
deriving DecidableEq

/-- The narrow dtype of a concrete scalar value. -/
def dtypeOf : PVal → DType
  | .pint _ => .tInt
  | .pstr _ => .tStr
  | .pbool _ => .tBool

/-- Error kinds of spec §7. -/
inductive PErr where
  | invalidLayout
  | typeMismatch (msg : String)
  | indexOutOfBounds
  | typeCoercionError
deriving DecidableEq

/-- A flat (scalar) column: a dtype tag and one optional cell per row. -/
structure Column where
  dtype : DType
  cells : List (Option PVal)
deriving DecidableEq

/-- A List Column in row form: an element dtype and, per row, either a
null sublist (`none`) or a sublist of optional elements. -/
structure ListCol where
  dtype : DType
  rows : List (Option (List (Option PVal)))
deriving DecidableEq

/-- Execution strategy of the Element Function Evaluator (spec §4.3 step 6:
both strategies must produce identical per-row results). -/
inductive Strategy where
  | threadLocal
  | threading
deriving DecidableEq

/-- Modelled from the spec: §4.3 steps 1–2 of the Element Function Evaluator
(its implementation is in the engine, not under the excerpted sources).
Per row: a null input is short-circuited to null when `skipNulls` is true,
otherwise `f` is invoked on the materialized row value. -/
def applyElement (f : Option PVal → Option PVal) (skipNulls : Bool) :
    List (Option PVal) → List (Option PVal) :=
  List.map fun cell =>
    match cell with
    | none => if skipNulls then none else f none
    | some v => f (some v)

/-- Modelled from the spec: §4.3 step 3 — the output element type is
inferred from the first non-null result. `none` when every result is null. -/
def inferFirst : List (Option PVal) → Option DType
  | [] => none
  | none :: rest => inferFirst rest
  | some v :: _ => some (dtypeOf v)

/-- Modelled from the spec: §4.3 step 3 — whether every non-null result
fits dtype `d`. -/
def fitsAll (d : DType) (rs : List (Option PVal)) : Bool :=
  rs.all fun r =>
    match r with
    | none => true
    | some v => dtypeOf v == d

/-- Modelled from the spec: §4.3 step 4 — whether every non-null result is
representable at an explicitly requested dtype (`object` boxes anything). -/
def coerceOk (d : DType) (rs : List (Option PVal)) : Bool :=
  rs.all fun r =>
    match r with
    | none => true
    | some v => dtypeOf v == d || d == .object

/-- Modelled from the spec: §4.3 — the Element Function Evaluator.
Invokes `f` per row via `applyElement`; with an explicit `retDtype` it
validates every result against it (`typeCoercionError` on failure), otherwise
it infers the dtype from the first non-null result and falls back to the
boxed generic `object` dtype when later results do not fit (never erroring).
The strategy does not influence results (spec §4.3 step 6). -/
def applyCol (f : Option PVal → Option PVal) (skipNulls : Bool)
    (retDtype : Option DType) (strat : Strategy) (col : Column) :
    Except PErr Column :=
  match strat with
  | _ =>
    let rs := applyElement f skipNulls col.cells
    match retDtype with
    | some d => if coerceOk d rs then .ok ⟨d, rs⟩ else .error .typeCoercionError
    | none =>
      match inferFirst rs with
      | none => .ok ⟨.object, rs⟩
      | some d => if fitsAll d rs then .ok ⟨d, rs⟩ else .ok ⟨.object, rs⟩

/-- The user function of `test_apply_skip_nulls`:
`lambda x: some_map[x]` with `some_map = {None: "a", 1: "b"}`.
(On any key outside the dict Python would raise `KeyError`; the evaluator
never reaches such a key on the tested input, so that branch is arbitrary.) -/
def tableLookup : Option PVal → Option PVal
  | none => some (.pstr "a")
  | some (.pint 1) => some (.pstr "b")
  | _ => none

/-- C1: the Element Function Evaluator on input `[None, 1]` with
`f = lambda x: table[x]`, `table = {None: "a", 1: "b"}`: with
`skip_nulls=True` (the default) the null row is short-circuited to null
without invoking `f`, yielding `[None, "b"]`; with `skip_nulls=False` `f`
is invoked on the null as well, yielding `["a", "b"]`. -/
theorem apply_skip_nulls_semantics :
    applyCol tableLookup true none .threadLocal
        ⟨.tInt, [none, some (.pint 1)]⟩ =
      .ok ⟨.tStr, [none, some (.pstr "b")]⟩ ∧
    applyCol tableLookup false none .threadLocal
        ⟨.tInt, [none, some (.pint 1)]⟩ =
      .ok ⟨.tStr, [some (.pstr "a"), some (.pstr "b")]⟩ := by
  exact ⟨rfl, rfl⟩

/-- C5: on a zero-row input column the Element Function Evaluator, under any
execution strategy, never invokes the user function (the output does not
depend on `f` at all) and succeeds with a zero-row output column of the
explicitly specified dtype (or of the fallback dtype when none is given). -/
theorem apply_empty_input (f g : Option PVal → Option PVal)
    (skip skip' : Bool) (ret : Option DType) (strat strat' : Strategy)
    (dt : DType) :
    applyCol f skip ret strat ⟨dt, []⟩ = applyCol g skip' ret strat' ⟨dt, []⟩ ∧
    applyCol f skip ret strat ⟨dt, []⟩ = .ok ⟨ret.getD .object, []⟩ := by
  cases ret <;> cases strat <;> cases strat' <;> exact ⟨rfl, rfl⟩

/-- C6: when the per-row results of `f` do not all fit the element type
inferred from the first non-null result, the evaluator without an explicit
`return_dtype` succeeds (never errors) with a boxed generic `object` column
retaining every per-row result unchanged. -/
theorem apply_mixed_object_fallback (f : Option PVal → Option PVal)
    (strat : Strategy) (col : Column) (d : DType)
    (h1 : inferFirst (applyElement f true col.cells) = some d)
    (h2 : fitsAll d (applyElement f true col.cells) = false) :
    applyCol f true none strat col =
      .ok ⟨.object, applyElement f true col.cells⟩ := by
  cases strat <;> simp [applyCol, h1, h2]

/-- Witness for C6: a column mixing an integer and a string under the
identity function has inferred dtype `tInt`, fails `fitsAll`, and falls
back to the boxed `object` column retaining both values. -/
theorem apply_mixed_object_fallback_witness :
    inferFirst (applyElement (fun x => x) true
        [some (.pint 1), some (.pstr "a")]) = some .tInt ∧
    fitsAll .tInt (applyElement (fun x => x) true
        [some (.pint 1), some (.pstr "a")]) = false ∧
    applyCol (fun x => x) true none .threadLocal
        ⟨.object, [some (.pint 1), some (.pstr "a")]⟩ =
      .ok ⟨.object, [some (.pint 1), some (.pstr "a")]⟩ :=
  ⟨rfl, rfl,
    (apply_mixed_object_fallback (fun x => x) .threadLocal
      ⟨.object, [some (.pint 1), some (.pstr "a")]⟩ .tInt rfl rfl).trans rfl⟩

/-- Modelled from the spec: §4.2 `get` kernel per sublist (docstring of
`ListNameSpace.get`): index `0` is the first item, `-1` the last, and an
out-of-bounds index yields null, never an error. -/
def getSub (xs : List (Option PVal)) (i : Int) : Option PVal :=
  let n : Int := xs.length
  let j := if i < 0 then i + n else i
  if 0 ≤ j ∧ j < n then xs.getD j.toNat none else none

/-- Modelled from the spec: §4.2 — `get(index)` over a List Column; a null
input sublist propagates to a null output row (general kernel contract). -/
def get (col : ListCol) (index : Int) : Column :=
  ⟨col.dtype, col.rows.map fun row => row.bind fun xs => getSub xs index⟩

/-- `ListNameSpace.__getitem__` from `series/list.py`: `return self.get(item)`. -/
def getitem (col : ListCol) (item : Int) : Column :=
  get col item

/-- C10: the subscript operator `__getitem__(item)` returns exactly the same
column as `get(item)` for every List Column and integer index — including the
negative-indexing and out-of-bounds-yields-null behavior of `get`, since the
two are definitionally equal. -/
theorem getitem_eq_get (col : ListCol) (item : Int) :
    getitem col item = get col item :=
  rfl

/-- Modelled from the spec: §4.2 `take` — one index fetched from one sublist.
In bounds: the stored cell; out of bounds: null when `nullOnOob`, otherwise
the `IndexOutOfBounds` failure of §7. -/
def takeIdx (xs : List (Option PVal)) (nullOnOob : Bool) (i : Nat) :
    Except PErr (Option PVal) :=
  if i < xs.length then .ok (xs.getD i none)
  else if nullOnOob then .ok none else .error .indexOutOfBounds

/-- Modelled from the spec: §4.2 `take` applied to one sublist with a shared
index list; the first failing index aborts the whole operation (§7: errors
fail the entire operation, no partial result). -/
def takeSub (xs : List (Option PVal)) (nullOnOob : Bool) :
    List Nat → Except PErr (List (Option PVal))
  | [] => .ok []
  | i :: rest =>
    match takeIdx xs nullOnOob i, takeSub xs nullOnOob rest with
    | .ok v, .ok vs => .ok (v :: vs)
    | .error e, _ => .error e
    | _, .error e => .error e

/-- Modelled from the spec: §4.2 `take` over the rows of a List Column with a
single shared index list; a null sublist propagates to a null row. -/
def takeRows (nullOnOob : Bool) (idxs : List Nat) :
    List (Option (List (Option PVal))) →
      Except PErr (List (Option (List (Option PVal))))
  | [] => .ok []
  | none :: rest => (takeRows nullOnOob idxs rest).map (none :: ·)
  | some xs :: rest =>
    match takeSub xs nullOnOob idxs, takeRows nullOnOob idxs rest with
    | .ok ys, .ok rs => .ok (some ys :: rs)
    | .error e, _ => .error e
    | _, .error e => .error e

/-- Modelled from the spec: §4.2 `take(indices, null_on_oob)` over a List
Column (`null_on_oob=false` is the caller-facing default in
`ListNameSpace.take`). -/
def take (col : ListCol) (idxs : List Nat) (nullOnOob : Bool) :
    Except PErr ListCol :=
  (takeRows nullOnOob idxs col.rows).map (⟨col.dtype, ·⟩)

/-- Any failure `takeIdx` produces is `IndexOutOfBounds`. -/
theorem takeIdx_error_eq (xs : List (Option PVal)) (noob : Bool) (i : Nat)
    (e : PErr) (h : takeIdx xs noob i = .error e) : e = .indexOutOfBounds := by
  unfold takeIdx at h
  by_cases hi : i < xs.length
  · simp [hi] at h
  · simp only [hi, if_false] at h
    cases noob with
    | true => simp at h
    | false => simp at h; exact h.symm

/-- Any failure `takeSub` produces is `IndexOutOfBounds`. -/
theorem takeSub_error_eq (xs : List (Option PVal)) (noob : Bool) :
    ∀ (idxs : List Nat) (e : PErr),
      takeSub xs noob idxs = .error e → e = .indexOutOfBounds := by
  intro idxs
  induction idxs with
  | nil => intro e h; exact absurd h (by simp [takeSub])
  | cons i rest ih =>
    intro e h
    unfold takeSub at h
    cases hti : takeIdx xs noob i with
    | ok v =>
      rw [hti] at h
      cases hrest : takeSub xs noob rest with
      | ok vs => rw [hrest] at h; exact absurd h (by simp)
      | error e' => rw [hrest] at h; simp at h; exact h ▸ ih e' hrest
    | error e' =>
      rw [hti] at h
      simp at h
      exact h ▸ takeIdx_error_eq xs noob i e' hti

/-- With `nullOnOob = true`, `takeSub` always succeeds, substituting null
for each out-of-bounds index. -/
theorem takeSub_null_on_oob (xs : List (Option PVal)) :
    ∀ idxs : List Nat,
      takeSub xs true idxs =
        .ok (idxs.map fun i => if i < xs.length then xs.getD i none else none) := by
  intro idxs
  induction idxs with
  | nil => rfl
  | cons i rest ih =>
    unfold takeSub takeIdx
    by_cases hi : i < xs.length <;> simp [hi, ih]

/-- With `nullOnOob = false`, an out-of-bounds index anywhere in the index
list makes `takeSub` fail with `IndexOutOfBounds`. -/
theorem takeSub_oob_fails (xs : List (Option PVal)) :
    ∀ idxs : List Nat, (∃ i ∈ idxs, xs.length ≤ i) →
      takeSub xs false idxs = .error .indexOutOfBounds := by
  intro idxs
  induction idxs with
  | nil => rintro ⟨i, hi, _⟩; exact absurd hi (List.not_mem_nil i)
  | cons j rest ih =>
    rintro ⟨i, hi, hoob⟩
    unfold takeSub takeIdx
    by_cases hj : j < xs.length
    · have hir : i ∈ rest := by
        rcases List.mem_cons.mp hi with h | h
        · exact absurd (h ▸ hj) (Nat.not_lt.mpr hoob)
        · exact h
      rw [ih ⟨i, hir, hoob⟩]
      simp [hj]
    · simp [hj]

/-- C2: `take` with `null_on_oob=false` (the default) fails with
`IndexOutOfBounds` as soon as any index is out of bounds for a (non-null)
sublist — both per sublist and over a whole List Column — while
`null_on_oob=true` substitutes null for each offending element; in
particular `take([0,2,5], null_on_oob=True)` on a length-3 sublist yields
`[v0, v2, None]`. -/
theorem take_oob_policy :
    (∀ (xs : List (Option PVal)) (idxs : List Nat),
        (∃ i ∈ idxs, xs.length ≤ i) →
        takeSub xs false idxs = .error .indexOutOfBounds) ∧
    (∀ (col : ListCol) (idxs : List Nat) (xs : List (Option PVal)),
        some xs ∈ col.rows → (∃ i ∈ idxs, xs.length ≤ i) →
        take col idxs false = .error .indexOutOfBounds) ∧
    (∀ (xs : List (Option PVal)) (idxs : List Nat),
        takeSub xs true idxs =
          .ok (idxs.map fun i => if i < xs.length then xs.getD i none else none)) ∧
    (∀ v0 v1 v2 : Option PVal,
        takeSub [v0, v1, v2] true [0, 2, 5] = .ok [v0, v2, none]) := by
  refine ⟨takeSub_oob_fails, ?_, takeSub_null_on_oob, ?_⟩
  · intro col idxs xs hmem hoob
    unfold take
    suffices h : takeRows false idxs col.rows = .error .indexOutOfBounds by
      rw [h]; rfl
    revert hmem
    generalize col.rows = rows
    induction rows with
    | nil => intro hmem; exact absurd hmem (List.not_mem_nil _)
    | cons row rest ih =>
      intro hmem
      rcases List.mem_cons.mp hmem with h | h
      · subst h
        unfold takeRows
        rw [takeSub_oob_fails xs idxs hoob]
        cases takeRows false idxs rest <;> rfl
      · cases row with
        | none => unfold takeRows; rw [ih h]; rfl
        | some ys =>
          unfold takeRows
          rw [ih h]
          cases hys : takeSub ys false idxs with
          | ok _ => rfl
          | error e => rw [takeSub_error_eq ys false idxs e hys]
  · intro v0 v1 v2
    rw [takeSub_null_on_oob]
    rfl

/-- Witness for C2: the length-3 sublist `[v0, v1, v2] := [1, 2, 3]` with
indices `[0, 2, 5]` (index 5 out of bounds) errors under the default policy
and yields `[1, 3, None]` under `null_on_oob=true`; a one-row List Column
holding that sublist errors the same way. -/
theorem take_oob_policy_witness :
    (∃ i ∈ [0, 2, 5], List.length
        [some (PVal.pint 1), some (PVal.pint 2), some (PVal.pint 3)] ≤ i) ∧
    takeSub [some (PVal.pint 1), some (PVal.pint 2), some (PVal.pint 3)]
        false [0, 2, 5] = .error .indexOutOfBounds ∧
    take ⟨.tInt, [some [some (PVal.pint 1), some (PVal.pint 2),
        some (PVal.pint 3)]]⟩ [0, 2, 5] false = .error .indexOutOfBounds ∧
    takeSub [some (PVal.pint 1), some (PVal.pint 2), some (PVal.pint 3)]
        true [0, 2, 5] = .ok [some (PVal.pint 1), some (PVal.pint 3), none] :=
  ⟨⟨5, by decide, by decide⟩,
    take_oob_policy.1 _ [0, 2, 5] ⟨5, by decide, by decide⟩,
    take_oob_policy.2.1 _ [0, 2, 5]
      [some (PVal.pint 1), some (PVal.pint 2), some (PVal.pint 3)]
      (by decide) ⟨5, by decide, by decide⟩,
    take_oob_policy.2.2.2 _ _ _⟩

/-- Modelled from the spec: §4.2 `join` — reads one sublist as a list of
strings; `none` when any element is null or not a string. -/
def asStrings : List (Option PVal) → Option (List String)
  | [] => some []
  | some (.pstr s) :: rest => (asStrings rest).map (s :: ·)
  | _ => none

/-- Modelled from the spec: §4.2/§9 `join(separator)` on one row — a null
sublist yields null, and a sublist containing any null element yields null
for that row (observed null-anywhere-nulls-the-result contract); otherwise
the strings are concatenated with the separator. -/
def joinRow (sep : String) : Option (List (Option PVal)) → Option PVal
  | none => none
  | some xs => (asStrings xs).map fun ss => .pstr (String.intercalate sep ss)

/-- Modelled from the spec: §4.2 `join(separator)` over a List Column;
`TypeMismatch` when the element type is not string (`ListNameSpace.join`
docstring: errors if inner type of list is not Utf8). -/
def join (col : ListCol) (sep : String) : Except PErr Column :=
  if col.dtype = .tStr then .ok ⟨.tStr, col.rows.map (joinRow sep)⟩
  else .error (.typeMismatch "join expected Utf8 list elements")

/-- A sublist containing a null element reads as no string list at all. -/
theorem asStrings_of_mem_none (xs : List (Option PVal)) (h : none ∈ xs) :
    asStrings xs = none := by
  induction xs with
  | nil => exact absurd h (List.not_mem_nil none)
  | cons c rest ih =>
    rcases List.mem_cons.mp h with hc | hc
    · rw [← hc]; rfl
    · cases c with
      | none => rfl
      | some v =>
        cases v with
        | pint n => rfl
        | pbool b => rfl
        | pstr s => unfold asStrings; rw [ih hc]; rfl

/-- C3: on a List Column of string element type, `join(separator)` succeeds
row-wise via `joinRow`, and every row whose sublist contains any null element
comes out null (rather than joining the non-null remainder); on a List Column
of non-string element type `join` fails with `TypeMismatch`. -/
theorem join_null_and_type_policy :
    (∀ (col : ListCol) (sep : String), col.dtype = .tStr →
        join col sep = .ok ⟨.tStr, col.rows.map (joinRow sep)⟩) ∧
    (∀ (sep : String) (xs : List (Option PVal)), none ∈ xs →
        joinRow sep (some xs) = none) ∧
    (∀ (col : ListCol) (sep : String), col.dtype ≠ .tStr →
        ∃ m, join col sep = .error (.typeMismatch m)) := by
  refine ⟨?_, ?_, ?_⟩
  · intro col sep h
    unfold join
    rw [if_pos h]
  · intro sep xs h
    simp only [joinRow]
    rw [asStrings_of_mem_none xs h]
    rfl
  · intro col sep h
    exact ⟨"join expected Utf8 list elements", by unfold join; rw [if_neg h]⟩

/-- Witness for C3: joining `["x", null]` with separator `"-"` yields null
for that row (within a whole string-typed column as well), and `join` on an
integer-typed List Column fails with `TypeMismatch`. -/
theorem join_null_and_type_policy_witness :
    join ⟨.tStr, [some [some (.pstr "x"), none]]⟩ "-" = .ok ⟨.tStr, [none]⟩ ∧
    joinRow "-" (some [some (.pstr "x"), none]) = none ∧
    (∃ m, join ⟨.tInt, []⟩ "-" = .error (.typeMismatch m)) :=
  ⟨(join_null_and_type_policy.1 ⟨.tStr, [some [some (.pstr "x"), none]]⟩ "-"
      rfl).trans rfl,
    join_null_and_type_policy.2.1 "-" [some (.pstr "x"), none] (by decide),
    join_null_and_type_policy.2.2 ⟨.tInt, []⟩ "-" (by decide)⟩

/-- Modelled from the spec: §4.1/§4.2 `explode` null-row policy — a null
sublist contributes one null row (the element types here all admit null),
an empty sublist contributes zero rows, any other sublist contributes its
elements in order. -/
def explodeRow : Option (List (Option PVal)) → List (Option PVal)
  | none => [none]
  | some xs => xs

/-- Modelled from the spec: §4.2 `explode` — expands a List Column's rows to
one flat row per element. -/
def explodeRows (rows : List (Option (List (Option PVal)))) :
    List (Option PVal) :=
  rows.flatMap explodeRow

/-- Modelled from the spec: `ListNameSpace.explode` — a column with a
separate row for every list element, of the element data type. -/
def explode (col : ListCol) : Column :=
  ⟨col.dtype, explodeRows col.rows⟩

/-- Modelled from the spec: §4.2 `explode` — the implicit per-row repeat
count, derivable from the source offsets at explode time
(`offsets[i+1] - offsets[i]` for a valid row, tagged null for a null row). -/
def repeatCount : Option (List (Option PVal)) → Option Nat :=
  Option.map List.length

/-- Modelled from the spec: §4.2 `explode` invertibility — regroups a flat
exploded column back into sublists from the per-row repeat counts (a null
count consumes the single null row the null sublist contributed). -/
def regroup : List (Option Nat) → List (Option PVal) →
    List (Option (List (Option PVal)))
  | [], _ => []
  | none :: cs, flat => none :: regroup cs (flat.drop 1)
  | some k :: cs, flat => some (flat.take k) :: regroup cs (flat.drop k)

/-- C4: `explode` followed by re-grouping the flat output using the original
per-row repeat counts (derived from the source offsets) reconstructs every
List Column's rows exactly, while a null sublist contributes exactly one
null row to the exploded output and an empty sublist contributes zero rows. -/
theorem explode_round_trip :
    (∀ col : ListCol,
        regroup (col.rows.map repeatCount) (explode col).cells = col.rows) ∧
    explodeRow none = [none] ∧
    explodeRow (some []) = [] := by
  refine ⟨?_, rfl, rfl⟩
  intro col
  show regroup (col.rows.map repeatCount) (explodeRows col.rows) = col.rows
  generalize col.rows = rows
  induction rows with
  | nil => rfl
  | cons row rest ih =>
    cases row with
    | none =>
      show none :: regroup (rest.map repeatCount)
          (((explodeRow none ++ explodeRows rest)).drop 1) = none :: rest
      rw [List.cons_inj_right]
      exact ih
    | some xs =>
      show some (((xs ++ explodeRows rest)).take xs.length) ::
          regroup (rest.map repeatCount)
            (((xs ++ explodeRows rest)).drop xs.length) = some xs :: rest
      rw [List.take_left, List.drop_left, List.cons_inj_right]
      exact ih

/-- Modelled from the spec: §4.2 `sort` on one sublist, generic in the
direction's comparison relation — a stable (insertion) sort of the non-null
elements, with the nulls placed last. -/
def sortWith {α : Type} (r : α → α → Prop) [DecidableRel r]
    (xs : List (Option α)) : List (Option α) :=
  ((xs.filterMap id).insertionSort r).map some ++
    List.replicate (xs.length - (xs.filterMap id).length) none

/-- Modelled from the spec: §4.2 `sort(descending)` on one sublist — a
stable sort of the sublist's elements in the element type's total order
(the kernel is dtype-generic, so the element type is any linear order here),
with nulls sorting last regardless of direction. -/
def sortSublist {α : Type} [LinearOrder α] (descending : Bool)
    (xs : List (Option α)) : List (Option α) :=
  if descending then sortWith (· ≥ ·) xs else sortWith (· ≤ ·) xs

theorem filterMap_id_map_some {α : Type} (l : List α) :
    (l.map some).filterMap id = l := by
  induction l with
  | nil => rfl
  | cons x rest ih => simp [ih]

theorem filterMap_id_replicate_none {α : Type} (k : Nat) :
    (List.replicate k (none : Option α)).filterMap id = [] := by
  induction k with
  | zero => rfl
  | succ n ih => simp [List.replicate_succ, ih]

theorem length_filterMap_id_of_no_none {α : Type} (xs : List (Option α))
    (h : ∀ x ∈ xs, x ≠ none) : (xs.filterMap id).length = xs.length := by
  induction xs with
  | nil => rfl
  | cons x rest ih =>
    cases x with
    | none => exact absurd rfl (h none (List.mem_cons_self _ _))
    | some v =>
      have hCons : List.filterMap id (some v :: rest) =
          v :: List.filterMap id rest := by
        simp
      rw [hCons, List.length_cons, List.length_cons,
        ih fun y hy => h y (List.mem_cons_of_mem _ hy)]

theorem sortWith_idem {α : Type} (r : α → α → Prop) [DecidableRel r]
    [IsTotal α r] [IsTrans α r] (xs : List (Option α)) :
    sortWith r (sortWith r xs) = sortWith r xs := by
  unfold sortWith
  set vals := xs.filterMap id with hv
  set k := xs.length - vals.length with hk
  set s := vals.insertionSort r with hs
  have hfm : (s.map some ++ List.replicate k none).filterMap id = s := by
    rw [List.filterMap_append, filterMap_id_map_some,
      filterMap_id_replicate_none, List.append_nil]
  rw [hfm]
  have hsorted : s.insertionSort r = s :=
    (List.sorted_insertionSort r vals).insertionSort_eq
  rw [hsorted]
  have hlen2 : (s.map some ++ List.replicate k none).length - s.length = k := by
    simp
  rw [hlen2]

theorem sortSublist_idem {α : Type} [LinearOrder α] (descending : Bool)
    (xs : List (Option α)) :
    sortSublist descending (sortSublist descending xs) =
      sortSublist descending xs := by
  cases descending with
  | false =>
    show sortWith (· ≤ ·) (sortWith (· ≤ ·) xs) = sortWith (· ≤ ·) xs
    exact sortWith_idem (· ≤ ·) xs
  | true =>
    show sortWith (· ≥ ·) (sortWith (· ≥ ·) xs) = sortWith (· ≥ ·) xs
    exact sortWith_idem (· ≥ ·) xs

theorem insertionSort_ge_eq_reverse_le {α : Type} [LinearOrder α]
    (vals : List α) :
    vals.insertionSort (· ≥ ·) = (vals.insertionSort (· ≤ ·)).reverse := by
  apply List.eq_of_perm_of_sorted (r := (· ≥ ·))
  · exact (List.perm_insertionSort (· ≥ ·) vals).trans
      ((List.perm_insertionSort (· ≤ ·) vals).symm.trans
        (vals.insertionSort (· ≤ ·)).reverse_perm.symm)
  · exact List.sorted_insertionSort (· ≥ ·) vals
  · have h := List.sorted_insertionSort (· ≤ ·) vals
    simpa [List.Sorted, List.pairwise_reverse] using h

theorem sortSublist_desc_reverse {α : Type} [LinearOrder α]
    (xs : List (Option α)) (h : ∀ x ∈ xs, x ≠ none) :
    sortSublist true xs = (sortSublist false xs).reverse := by
  show sortWith (· ≥ ·) xs = (sortWith (· ≤ ·) xs).reverse
  unfold sortWith
  rw [length_filterMap_id_of_no_none xs h, Nat.sub_self]
  simp only [List.replicate_zero, List.append_nil]
  rw [insertionSort_ge_eq_reverse_le, List.map_reverse]

/-- C7: for every sublist (of any linearly ordered element type), `sort` is
idempotent — sorting an already-sorted sublist reproduces it — and on a
sublist containing no nulls `sort(descending=True)` is the exact reverse of
`sort(descending=False)`. -/
theorem sort_idempotent_and_desc_reverse {α : Type} [LinearOrder α]
    (descending : Bool) (xs : List (Option α)) :
    sortSublist descending (sortSublist descending xs) =
      sortSublist descending xs ∧
    ((∀ x ∈ xs, x ≠ none) →
      sortSublist true xs = (sortSublist false xs).reverse) :=
  ⟨sortSublist_idem descending xs, sortSublist_desc_reverse xs⟩

/-- Witness for C7: the null-free integer sublist `[3, 1, 2]` sorts
idempotently and descending equals the reverse of ascending. -/
theorem sort_idempotent_and_desc_reverse_witness :
    sortSublist true (sortSublist true
        [some (3 : Int), some 1, some 2]) =
      sortSublist true [some (3 : Int), some 1, some 2] ∧
    sortSublist true [some (3 : Int), some 1, some 2] =
      (sortSublist false [some (3 : Int), some 1, some 2]).reverse :=
  ⟨(sort_idempotent_and_desc_reverse true
      [some (3 : Int), some 1, some 2]).1,
    (sort_idempotent_and_desc_reverse true
      [some (3 : Int), some 1, some 2]).2 (by decide)⟩

/-- Modelled from the spec: §4.2 set algebra — duplicate elimination keeping
the first occurrence of each element (insertion-order-from-first-occurrence),
tracking already-emitted elements in `seen`. -/
def dedupAux {α : Type} [DecidableEq α] (seen : List α) : List α → List α
  | [] => []
  | x :: rest =>
    if x ∈ seen then dedupAux seen rest
    else x :: dedupAux (x :: seen) rest

/-- Modelled from the spec: §4.2 set algebra — collapse a list to its
distinct elements in first-occurrence order. -/
def dedupKeepFirst {α : Type} [DecidableEq α] (l : List α) : List α :=
  dedupAux [] l

/-- Modelled from the spec: §4.2 `set_union` on one pair of sublists — the
elements of both sides in first-occurrence order with duplicates eliminated;
null (`Option.none`) is an ordinary set member participating in equality. -/
def setUnionSub (xs ys : List (Option PVal)) : List (Option PVal) :=
  dedupKeepFirst (xs ++ ys)

/-- Modelled from the spec: §4.2 `set_union(a, b)` over two List Columns,
row-wise; a null sublist on either side propagates to a null result row
(§4.2 general kernel contract). -/
def set_union (a b : ListCol) : ListCol :=
  ⟨a.dtype,
    (a.rows.zip b.rows).map fun rw =>
      match rw with
      | (some xs, some ys) => some (setUnionSub xs ys)
      | _ => none⟩

theorem mem_dedupAux {α : Type} [DecidableEq α] :
    ∀ (l seen : List α) (y : α), y ∈ dedupAux seen l → y ∈ l ∧ y ∉ seen := by
  intro l
  induction l with
  | nil => intro seen y h; exact absurd h (List.not_mem_nil y)
  | cons x rest ih =>
    intro seen y h
    unfold dedupAux at h
    by_cases hx : x ∈ seen
    · rw [if_pos hx] at h
      obtain ⟨h1, h2⟩ := ih seen y h
      exact ⟨List.mem_cons_of_mem x h1, h2⟩
    · rw [if_neg hx] at h
      rcases List.mem_cons.mp h with hy | hy
      · exact ⟨hy ▸ List.mem_cons_self x rest, hy ▸ hx⟩
      · obtain ⟨h1, h2⟩ := ih (x :: seen) y hy
        exact ⟨List.mem_cons_of_mem x h1,
          fun hc => h2 (List.mem_cons_of_mem x hc)⟩

theorem nodup_dedupAux {α : Type} [DecidableEq α] :
    ∀ (l seen : List α), (dedupAux seen l).Nodup := by
  intro l
  induction l with
  | nil => intro seen; exact List.nodup_nil
  | cons x rest ih =>
    intro seen
    unfold dedupAux
    by_cases hx : x ∈ seen
    · rw [if_pos hx]; exact ih seen
    · rw [if_neg hx]
      refine List.nodup_cons.mpr ⟨?_, ih (x :: seen)⟩
      intro hc
      exact (mem_dedupAux rest (x :: seen) x hc).2 (List.mem_cons_self x seen)

/-- C8: every non-null sublist produced by `set_union(a, b)` contains no
duplicate elements — for arbitrary List Columns `a` and `b`, even when their
own sublists contain duplicates, and with null an ordinary set member of the
`Option`-valued element equality. -/
theorem set_union_result_nodup (a b : ListCol) (i : Nat)
    (s : List (Option PVal)) (h : (set_union a b).rows.get? i = some (some s)) :
    s.Nodup := by
  unfold set_union at h
  simp only [List.get?_eq_getElem?, List.getElem?_map] at h
  cases hz : (a.rows.zip b.rows)[i]? with
  | none => rw [hz] at h; exact absurd h (by simp)
  | some rw' =>
    rw [hz] at h
    obtain ⟨xs, ys⟩ := rw'
    cases xs with
    | none => exact absurd h (by simp)
    | some xs' =>
      cases ys with
      | none => exact absurd h (by simp)
      | some ys' =>
        have hs : some (some (setUnionSub xs' ys')) = some (some s) := h
        rw [← Option.some.inj (Option.some.inj hs)]
        exact nodup_dedupAux (xs' ++ ys') []

/-- Witness for C8: both sides hold duplicates and nulls; the union row
`[1, null, 2]` of `a = [[1, 1, null]]` and `b = [[null, 2, 2]]` is
duplicate-free. -/
theorem set_union_result_nodup_witness :
    (set_union ⟨.tInt, [some [some (.pint 1), some (.pint 1), none]]⟩
        ⟨.tInt, [some [none, some (.pint 2), some (.pint 2)]]⟩).rows.get? 0 =
      some (some [some (.pint 1), none, some (.pint 2)]) ∧
    List.Nodup [some (PVal.pint 1), none, some (PVal.pint 2)] :=
  ⟨rfl,
    set_union_result_nodup
      ⟨.tInt, [some [some (.pint 1), some (.pint 1), none]]⟩
      ⟨.tInt, [some [none, some (.pint 2), some (.pint 2)]]⟩ 0
      [some (.pint 1), none, some (.pint 2)] rfl⟩

/-- Modelled from the spec: §4.3 step 8 — the container shapes a user
function can hand back to the dataframe row-apply variant. -/
inductive PyRet where
  | tup (xs : List PVal)
  | lst (xs : List PVal)
  | dct (xs : List (String × PVal))
deriving DecidableEq

/-- The Python-facing name of each container shape. -/
def shapeName : PyRet → String
  | .tup _ => "tuple"
  | .lst _ => "list"
  | .dct _ => "dict"

/-- Whether a returned container is the required fixed-arity ordered tuple. -/
def isTup : PyRet → Bool
  | .tup _ => true
  | _ => false

/-- Modelled from the spec: §4.3 step 8 / §7 — each row's return must be a
tuple; any other container shape fails with a `TypeMismatch` naming the
expected vs. received shape (test expectation: "expected tuple, got list"). -/
def rowToTuple : PyRet → Except PErr (List PVal)
  | .tup xs => .ok xs
  | r => .error (.typeMismatch ("expected tuple, got " ++ shapeName r))

/-- Modelled from the spec: §4.3 step 8 — the dataframe row-apply variant:
invoke `f` on every row and collect the returned tuples, aborting on the
first non-tuple return (§7: errors fail the entire operation). -/
def dfApply {ρ : Type} (f : ρ → PyRet) : List ρ → Except PErr (List (List PVal))
  | [] => .ok []
  | r :: rest =>
    match rowToTuple (f r), dfApply f rest with
    | .ok t, .ok ts => .ok (t :: ts)
    | .error e, _ => .error e
    | _, .error e => .error e

/-- C9: whenever the user function returns a non-tuple container for some
dataframe row, the row-apply variant fails with a `TypeMismatch` error
naming the expected versus received shape; a plain-list return produces
exactly "expected tuple, got list". -/
theorem dfApply_non_tuple_fails :
    (∀ {ρ : Type} (f : ρ → PyRet) (rows : List ρ),
        (∃ r ∈ rows, isTup (f r) = false) →
        ∃ shape, shape ≠ "tuple" ∧
          dfApply f rows =
            .error (.typeMismatch ("expected tuple, got " ++ shape))) ∧
    (∀ {ρ : Type} (f : ρ → PyRet) (r : ρ) (xs : List PVal),
        f r = .lst xs →
        dfApply f [r] = .error (.typeMismatch "expected tuple, got list")) := by
  constructor
  · intro ρ f rows
    induction rows with
    | nil => rintro ⟨r, hr, _⟩; exact absurd hr (List.not_mem_nil r)
    | cons a rest ih =>
      rintro ⟨r, hr, hshape⟩
      cases hfa : f a with
      | tup t =>
        have hrr : r ∈ rest := by
          rcases List.mem_cons.mp hr with h | h
          · rw [h, hfa] at hshape; exact absurd hshape (by simp [isTup])
          · exact h
        obtain ⟨shape, hne, herr⟩ := ih ⟨r, hrr, hshape⟩
        refine ⟨shape, hne, ?_⟩
        show (match rowToTuple (f a), dfApply f rest with
          | .ok t, .ok ts => Except.ok (t :: ts)
          | .error e, _ => Except.error e
          | _, .error e => Except.error e) = _
        rw [hfa, herr]
        rfl
      | lst t =>
        refine ⟨"list", by decide, ?_⟩
        show (match rowToTuple (f a), dfApply f rest with
          | .ok t, .ok ts => Except.ok (t :: ts)
          | .error e, _ => Except.error e
          | _, .error e => Except.error e) = _
        rw [hfa]
        cases dfApply f rest <;> rfl
      | dct t =>
        refine ⟨"dict", by decide, ?_⟩
        show (match rowToTuple (f a), dfApply f rest with
          | .ok t, .ok ts => Except.ok (t :: ts)
          | .error e, _ => Except.error e
          | _, .error e => Except.error e) = _
        rw [hfa]
        cases dfApply f rest <;> rfl
  · intro ρ f r xs h
    show (match rowToTuple (f r), dfApply f [] with
      | .ok t, .ok ts => Except.ok (t :: ts)
      | .error e, _ => Except.error e
      | _, .error e => Except.error e) = _
    rw [h]
    rfl

/-- Witness for C9: a function returning the plain list `[]` on the single
row of a one-row frame makes row-apply fail with the exact
"expected tuple, got list" `TypeMismatch`. -/
theorem dfApply_non_tuple_fails_witness :
    (∃ shape, shape ≠ "tuple" ∧
        dfApply (fun _ : Unit => PyRet.lst []) [()] =
          .error (.typeMismatch ("expected tuple, got " ++ shape))) ∧
    dfApply (fun _ : Unit => PyRet.lst []) [()] =
      .error (.typeMismatch "expected tuple, got list") :=
  ⟨dfApply_non_tuple_fails.1 (fun _ : Unit => PyRet.lst []) [()]
      ⟨(), List.mem_singleton.mpr rfl, rfl⟩,
    dfApply_non_tuple_fails.2 (fun _ : Unit => PyRet.lst []) () [] rfl⟩

end PolarsList
